import Mathlib

/-!
Shallow embedding of `src/proginit.py` (coryne-segmentation program
initialization): argument record, logger reconfiguration, and the INI
configuration store with its load (`reload_conf`) and safe-save
(`save_conf`) procedures.

The Python module keeps three mode globals (`conf_rw`, `conf_rw_save`,
`conf_rw_backup`), a `ConfigParser` instance `conf`, a `logging` logger,
and a parsed-arguments namespace `pargs`.  Here these become explicit
values threaded through the functions.  The INI file format handled by
`ConfigParser.read`/`ConfigParser.write` is modelled at the granularity
of logical lines (`INILine`): a section header, a `key = value` line, a
blank line or a comment line; configurations are ordered association
lists, matching the insertion-ordered dict semantics of `ConfigParser`.
Filesystem contents are an association list from path to file content,
and `save_conf` is factored through an explicit trace of filesystem
operations so that the intermediate states of the backup/temp-write/
rename sequence are observable.
-/

namespace Proginit

/-- First-match lookup in an association list with string keys, the
semantics of attribute/key access on `ConfigParser` sections and on our
filesystem model. -/
def lookupStr {β : Type} : List (String × β) → String → Option β
  | [], _ => none
  | e :: rest, k => if e.1 = k then some e.2 else lookupStr rest k

/-- One logical line of an INI file as handled by `ConfigParser`. -/
inductive INILine : Type
  | header (name : String)
  | kv (key value : String)
  | blank
  | comment (text : String)
deriving DecidableEq, Repr

/-- An in-memory `ConfigParser` state: an insertion-ordered mapping from
section name to an insertion-ordered mapping from option key to value. -/
abbrev Config : Type := List (String × List (String × String))

/-- The three module-level write-mode globals of `proginit.py`:
`conf_rw`, `conf_rw_save` and `conf_rw_backup`. -/
structure Modes : Type where
  conf_rw : Bool
  conf_rw_save : Bool
  conf_rw_backup : Bool
deriving DecidableEq, Repr

/-- The parsed-arguments namespace `pargs`.  `hasLogfile` and
`hasConffile` model the duck-typed `"logfile" in pargs` and
`"conffile" in pargs` membership tests; `conffile` is only meaningful
when `hasConffile` is true. -/
structure Pargs : Type where
  hasLogfile : Bool
  logfile : Option String
  verbose : Nat
  hasConffile : Bool
  conffile : String
deriving DecidableEq, Repr

/-- Results of the `os.access` permission probes made by `reload_conf`:
`access(conffile, R_OK)`, `access(dirname(conffile), W_OK)` and
`access(conffile, W_OK)`. -/
structure Access : Type where
  readable : Bool
  dirWritable : Bool
  fileWritable : Bool
deriving DecidableEq, Repr

/-- The distinct `RuntimeError` raise sites of `proginit.py`, which the
specification classifies as `ConfigModeError` (`confRwDisabled`) and
`ConfigAccessError` (the other three). -/
inductive ConfErr : Type
  | confRwDisabled
  | cannotAccessConfigFile
  | cannotWriteToDirectory
  | cannotWriteToConfigFile
deriving DecidableEq, Repr

/-! ### Logger model (`reconfigure_logger`) -/

/-- A log sink: the `StreamHandler(sys.stdout)` console sink or a
`FileHandler` on a path. -/
inductive Handler : Type
  | stream
  | file (path : String)
deriving DecidableEq, Repr

/-- The three log levels `reconfigure_logger` can select. -/
inductive LogLevel : Type
  | debug
  | info
  | warning
deriving DecidableEq, Repr

/-- Process-wide logger state: attached handlers and minimum level. -/
structure LoggerState : Type where
  handlers : List Handler
  level : LogLevel
deriving DecidableEq, Repr

/-- Verbosity mapping of `reconfigure_logger`: `pargs.verbose == 1`
gives INFO, `> 1` gives DEBUG, otherwise WARNING. -/
def loglevelOf (verbose : Nat) : LogLevel :=
  if verbose = 1 then LogLevel.info
  else if verbose > 1 then LogLevel.debug
  else LogLevel.warning

/-- Embedding of `reconfigure_logger()`: close and remove every attached
handler, attach a stdout stream handler, attach a file handler when
`"logfile" in pargs and pargs.logfile is not None`, and set the level
from the verbosity count.  Returns the new logger state together with
the list of handlers that were closed and detached. -/
def reconfigure_logger (pargs : Pargs) (st : LoggerState) :
    LoggerState × List Handler :=
  let closed := st.handlers
  let base := [Handler.stream]
  let handlers :=
    if pargs.hasLogfile then
      match pargs.logfile with
      | some p => base ++ [Handler.file p]
      | none => base
    else base
  (⟨handlers, loglevelOf pargs.verbose⟩, closed)

/-- The logger state produced by one `reconfigure_logger()` call. -/
def reconfigure1 (pargs : Pargs) (st : LoggerState) : LoggerState :=
  (reconfigure_logger pargs st).1

/-! ### ConfigParser read/write model -/

/-- Effect of encountering a `[name]` header during `ConfigParser.read`:
the section is created if absent, kept untouched if present. -/
def addSection (c : Config) (name : String) : Config :=
  if (lookupStr c name).isSome then c else c ++ [(name, [])]

/-- Generic ordered-dict update: replace the first entry with key `k`
in place, append the pair when the key is absent. -/
def setAssoc {β : Type} : List (String × β) → String → β → List (String × β)
  | [], k, v => [(k, v)]
  | e :: rest, k, v =>
      if e.1 = k then (k, v) :: rest else e :: setAssoc rest k v

/-- Generic in-place modification of the value at key `k`; no effect
when the key is absent. -/
def modAssoc {β : Type} :
    List (String × β) → String → (β → β) → List (String × β)
  | [], _, _ => []
  | e :: rest, k, g =>
      if e.1 = k then (e.1, g e.2) :: rest else e :: modAssoc rest k g

/-- Setting one option inside a section mapping: overwrite in place when
the key exists, append otherwise (ordered-dict update). -/
def setItems (items : List (String × String)) (k v : String) :
    List (String × String) :=
  setAssoc items k v

/-- Setting option `k := v` of section `sec` in a configuration. -/
def setKey (c : Config) (sec k v : String) : Config :=
  modAssoc c sec (fun items => setItems items k v)

/-- Line-by-line `ConfigParser.read` loop over an existing configuration,
tracking the current section.  Blank and comment lines are skipped; a
key/value line updates the current section.  (A key/value line before
any header is an error in `ConfigParser`; it never arises from files the
program writes and is skipped here.) -/
def parseLines : List INILine → Config → Option String → Config
  | [], c, _ => c
  | INILine.header name :: rest, c, _ =>
      parseLines rest (addSection c name) (some name)
  | INILine.kv k v :: rest, c, some sec =>
      parseLines rest (setKey c sec k v) (some sec)
  | INILine.kv _ _ :: rest, c, none => parseLines rest c none
  | INILine.blank :: rest, c, cur => parseLines rest c cur
  | INILine.comment _ :: rest, c, cur => parseLines rest c cur

/-- Embedding of `conf.read(path)` given the file's lines: parse into
the existing configuration (merge/overwrite semantics). -/
def conf_read (c : Config) (lines : List INILine) : Config :=
  parseLines lines c none

/-- Embedding of `conf.write(fh)`: for each section a `[name]` header,
one `key = value` line per option, then a blank line. -/
def writeINI : Config → List INILine
  | [] => []
  | s :: rest =>
      INILine.header s.1 ::
        (s.2.map (fun kv => INILine.kv kv.1 kv.2) ++
          (INILine.blank :: writeINI rest))

/-- Well-formed `ConfigParser` state: section names are unique, and key
names are unique within each section. -/
def WF (c : Config) : Prop :=
  (c.map Prod.fst).Nodup ∧ ∀ s ∈ c, (s.2.map Prod.fst).Nodup

instance : DecidablePred WF := fun c => by
  unfold WF; infer_instance

/-! ### Filesystem model -/

/-- Filesystem contents visible to the module: a mapping from path to
file content (as INI lines). -/
abbrev FS : Type := List (String × List INILine)

/-- Content of the file at `p`, `none` when it does not exist. -/
def fsRead (fs : FS) (p : String) : Option (List INILine) :=
  lookupStr fs p

/-- Writing (creating or truncating) the file at `p`. -/
def fsWrite (fs : FS) (p : String) (content : List INILine) : FS :=
  setAssoc fs p content

/-- Removing the file at `p`. -/
def fsRemove (fs : FS) (p : String) : FS :=
  fs.filter (fun e => e.1 ≠ p)

/-- One primitive filesystem operation performed by `save_conf`:
`shutil.copy`, `open(..., "w")` + `conf.write`, or `shutil.move`. -/
inductive FSOp : Type
  | copy (src dst : String)
  | write (p : String) (content : List INILine)
  | rename (src dst : String)
deriving DecidableEq, Repr

/-- Applying one operation.  `copy` and `rename` fail (as the Python
calls raise) when the source file does not exist. -/
def applyOp (fs : FS) : FSOp → Option FS
  | FSOp.copy src dst => (fsRead fs src).map (fun c => fsWrite fs dst c)
  | FSOp.write p content => some (fsWrite fs p content)
  | FSOp.rename src dst =>
      (fsRead fs src).map (fun c => fsRemove (fsWrite fs dst c) src)

/-- Applying a sequence of operations left to right. -/
def applyOps (fs : FS) : List FSOp → Option FS
  | [] => some fs
  | op :: rest => (applyOp fs op).bind (fun fs2 => applyOps fs2 rest)

/-! ### `save_conf` and `reload_conf` -/

/-- The filesystem-operation trace of `save_conf()`: raise when
`conf_rw` is off; otherwise, when a `conffile` is known, optionally copy
it to `<path>.bak`, then either write `<path>.new` and rename it over
`<path>` (safe save) or write `<path>` directly.  With no `conffile`
known the trace is empty (silent no-op). -/
def save_ops (m : Modes) (pargs : Pargs) (conf : Config) :
    Except ConfErr (List FSOp) :=
  if ¬ m.conf_rw then Except.error ConfErr.confRwDisabled
  else if pargs.hasConffile then
    Except.ok
      ((if m.conf_rw_backup then
          [FSOp.copy pargs.conffile (pargs.conffile ++ ".bak")]
        else []) ++
       (if m.conf_rw_save then
          [FSOp.write (pargs.conffile ++ ".new") (writeINI conf),
           FSOp.rename (pargs.conffile ++ ".new") pargs.conffile]
        else
          [FSOp.write pargs.conffile (writeINI conf)]))
  else Except.ok []

/-- Embedding of `save_conf()`: run the trace on the filesystem.  An
operation on a missing source file surfaces as `cannotAccessConfigFile`
(the Python call would raise an `OSError`). -/
def save_conf (m : Modes) (pargs : Pargs) (conf : Config) (fs : FS) :
    Except ConfErr FS :=
  match save_ops m pargs conf with
  | Except.error e => Except.error e
  | Except.ok ops =>
      match applyOps fs ops with
      | some fs2 => Except.ok fs2
      | none => Except.error ConfErr.cannotAccessConfigFile

/-- Embedding of `reload_conf(clear_load)`: nothing happens unless
`"conffile" in pargs`; then the three access checks run in order
(readability; directory writability, gated on
`conf_rw and (conf_rw_save or conf_rw_backup)`; file writability, gated
on `conf_rw`); then the configuration is optionally cleared section by
section and the file's lines are parsed into it. -/
def reload_conf (m : Modes) (a : Access) (pargs : Pargs)
    (clear_load : Bool) (conf : Config) (fs : FS) :
    Except ConfErr Config :=
  if pargs.hasConffile then
    if ¬ a.readable then Except.error ConfErr.cannotAccessConfigFile
    else if m.conf_rw ∧ (m.conf_rw_save ∨ m.conf_rw_backup) ∧ ¬ a.dirWritable then
      Except.error ConfErr.cannotWriteToDirectory
    else if m.conf_rw ∧ ¬ a.fileWritable then
      Except.error ConfErr.cannotWriteToConfigFile
    else
      let conf1 := if clear_load then ([] : Config) else conf
      Except.ok (conf_read conf1 ((fsRead fs pargs.conffile).getD []))
  else Except.ok conf

/-- Destinations the argument parser declares: `-i` (input),
`-f` (logfile) and `-v` (verbose). -/
def parser_dests : List String := ["input", "logfile", "verbose"]

/-- Presence of option `k` in section `sec` of a configuration. -/
def hasKey (c : Config) (sec k : String) : Bool :=
  ((lookupStr c sec).map (fun items => (lookupStr items k).isSome)).getD false

/-! ### Lookup and path lemmas -/

theorem lookupStr_append_of_isSome {β : Type} {l : List (String × β)}
    (l2 : List (String × β)) {k : String}
    (h : (lookupStr l k).isSome) :
    lookupStr (l ++ l2) k = lookupStr l k := by
  induction l with
  | nil => simp [lookupStr] at h
  | cons e rest ih =>
      by_cases he : e.1 = k
      · simp [lookupStr, he]
      · simp only [lookupStr, he, if_false, List.cons_append] at h ⊢
        exact ih h

theorem lookupStr_mem {β : Type} {l : List (String × β)} {k : String}
    {v : β} (h : lookupStr l k = some v) : (k, v) ∈ l := by
  induction l with
  | nil => simp [lookupStr] at h
  | cons e rest ih =>
      by_cases he : e.1 = k
      · simp only [lookupStr, he, if_true] at h
        injection h with h2
        subst h2
        subst he
        rw [Prod.mk.eta]
        exact List.mem_cons_self e rest
      · simp only [lookupStr, he, if_false] at h
        exact List.mem_cons_of_mem _ (ih h)

theorem mem_lookupStr {β : Type} {l : List (String × β)} {k : String}
    {v : β} (hnd : (l.map Prod.fst).Nodup) (hm : (k, v) ∈ l) :
    lookupStr l k = some v := by
  induction l with
  | nil => simp at hm
  | cons e rest ih =>
      rw [List.map_cons, List.nodup_cons] at hnd
      rcases List.mem_cons.mp hm with he | hm2
      · subst he
        simp [lookupStr]
      · have hk : k ∈ rest.map Prod.fst := List.mem_map_of_mem Prod.fst hm2
        have hne : e.1 ≠ k := fun hh => hnd.1 (hh ▸ hk)
        simp only [lookupStr, hne, if_false]
        exact ih hnd.2 hm2

theorem lookupStr_append_of_none {β : Type} {l : List (String × β)}
    (l2 : List (String × β)) {k : String} (h : lookupStr l k = none) :
    lookupStr (l ++ l2) k = lookupStr l2 k := by
  induction l with
  | nil => rfl
  | cons e rest ih =>
      by_cases he : e.1 = k
      · simp [lookupStr, he] at h
      · simp only [lookupStr, he, if_false, List.cons_append] at h ⊢
        exact ih h

theorem lookupStr_setAssoc_self {β : Type} (l : List (String × β))
    (k : String) (v : β) : lookupStr (setAssoc l k v) k = some v := by
  induction l with
  | nil => simp [setAssoc, lookupStr]
  | cons e rest ih =>
      by_cases he : e.1 = k
      · simp [setAssoc, he, lookupStr]
      · simp only [setAssoc, he, if_false, lookupStr]
        exact ih

theorem lookupStr_setAssoc_other {β : Type} (l : List (String × β))
    {k q : String} (v : β) (h : q ≠ k) :
    lookupStr (setAssoc l k v) q = lookupStr l q := by
  have hkq : k ≠ q := Ne.symm h
  induction l with
  | nil => simp [setAssoc, lookupStr, hkq]
  | cons e rest ih =>
      by_cases he : e.1 = k
      · simp only [setAssoc, he, if_true, lookupStr]
        rw [if_neg hkq, if_neg hkq]
      · simp only [setAssoc, he, if_false, lookupStr]
        by_cases heq : e.1 = q
        · rw [if_pos heq, if_pos heq]
        · rw [if_neg heq, if_neg heq]
          exact ih

theorem lookupStr_modAssoc {β : Type} (l : List (String × β)) (k : String)
    (g : β → β) (q : String) :
    lookupStr (modAssoc l k g) q
      = if q = k then (lookupStr l q).map g else lookupStr l q := by
  induction l with
  | nil => simp [modAssoc, lookupStr]
  | cons e rest ih =>
      by_cases he : e.1 = k
      · simp only [modAssoc, he, if_true, lookupStr]
        by_cases heq : e.1 = q
        · have hq : k = q := by rw [← he]; exact heq
          rw [if_pos hq, if_pos hq.symm, if_pos hq]
          rfl
        · have hq : ¬ k = q := by rw [← he]; exact heq
          have hq2 : ¬ q = k := fun hh => hq hh.symm
          rw [if_neg hq, if_neg hq2, if_neg hq]
      · simp only [modAssoc, he, if_false, lookupStr]
        by_cases heq : e.1 = q
        · rw [if_pos heq, if_pos heq, if_neg (by rw [← heq]; exact he)]
        · rw [if_neg heq, if_neg heq]
          exact ih

theorem setAssoc_id {β : Type} {l : List (String × β)} {k : String} {v : β}
    (h : lookupStr l k = some v) : setAssoc l k v = l := by
  induction l with
  | nil => simp [lookupStr] at h
  | cons e rest ih =>
      by_cases he : e.1 = k
      · simp only [lookupStr, he, if_true] at h
        injection h with h2
        simp only [setAssoc, he, if_true]
        rw [← he, ← h2, Prod.mk.eta]
      · simp only [lookupStr, he, if_false] at h
        simp only [setAssoc, he, if_false]
        rw [ih h]

theorem modAssoc_id {β : Type} {l : List (String × β)} {k : String}
    {g : β → β} {v : β} (hl : lookupStr l k = some v) (hg : g v = v) :
    modAssoc l k g = l := by
  induction l with
  | nil => simp [lookupStr] at hl
  | cons e rest ih =>
      by_cases he : e.1 = k
      · simp only [lookupStr, he, if_true] at hl
        injection hl with h2
        simp only [modAssoc, he, if_true]
        rw [h2, hg, ← h2, ← he, Prod.mk.eta]
      · simp only [lookupStr, he, if_false] at hl
        simp only [modAssoc, he, if_false]
        rw [ih hl]

theorem str_append_ne_of_ne (s : String) {t u : String} (h : t ≠ u) :
    s ++ t ≠ s ++ u := by
  intro heq
  apply h
  apply String.ext
  have h2 := congrArg String.data heq
  rw [String.data_append, String.data_append] at h2
  exact List.append_cancel_left h2

theorem str_append_ne_self (s : String) {t : String} (h : t ≠ "") :
    s ++ t ≠ s := by
  intro heq
  have h2 := congrArg String.length heq
  rw [String.length_append] at h2
  apply h
  apply String.ext
  have hlen : t.length = 0 := by omega
  cases t with
  | mk data =>
      simp [String.length] at hlen
      simp [hlen]

/-! ### Filesystem lemmas -/

theorem fsRead_write_self (fs : FS) (p : String) (c : List INILine) :
    fsRead (fsWrite fs p c) p = some c :=
  lookupStr_setAssoc_self fs p c

theorem fsRead_write_other {p q : String} (fs : FS) (c : List INILine)
    (h : q ≠ p) : fsRead (fsWrite fs p c) q = fsRead fs q :=
  lookupStr_setAssoc_other fs c h

theorem fsRead_remove_self (fs : FS) (p : String) :
    fsRead (fsRemove fs p) p = none := by
  induction fs with
  | nil => simp [fsRead, fsRemove, lookupStr]
  | cons e rest ih =>
      by_cases he : e.1 = p
      · simpa [fsRemove, List.filter, he] using ih
      · simpa [fsRead, fsRemove, List.filter, he, lookupStr] using ih

theorem fsRead_remove_other {p q : String} (fs : FS) (h : q ≠ p) :
    fsRead (fsRemove fs p) q = fsRead fs q := by
  induction fs with
  | nil => simp [fsRead, fsRemove, lookupStr]
  | cons e rest ih =>
      have h2 : p ≠ q := Ne.symm h
      by_cases he : e.1 = p
      · simpa [fsRead, fsRemove, List.filter_cons, he, h2, lookupStr] using ih
      · by_cases heq : e.1 = q
        · simp [fsRead, fsRemove, List.filter_cons, he, heq, h, lookupStr]
        · simpa [fsRead, fsRemove, List.filter_cons, he, heq, lookupStr] using ih

/-! ### Round-trip: parsing back what `conf.write` produced -/

theorem setItems_id {items : List (String × String)} {k v : String}
    (h : lookupStr items k = some v) : setItems items k v = items :=
  setAssoc_id h

theorem setKey_id {c : Config} {sec k v : String}
    {its : List (String × String)} (hsec : lookupStr c sec = some its)
    (hk : lookupStr its k = some v) : setKey c sec k v = c :=
  modAssoc_id hsec (setAssoc_id hk)

theorem addSection_id {c : Config} {name : String}
    (h : (lookupStr c name).isSome = true) : addSection c name = c := by
  unfold addSection
  rw [if_pos h]

theorem parseLines_kvs {c : Config} {sec : String}
    (todo : List (String × String)) (rest : List INILine)
    (h : ∀ e ∈ todo, setKey c sec e.1 e.2 = c) :
    parseLines (todo.map (fun kv => INILine.kv kv.1 kv.2) ++ rest) c (some sec)
      = parseLines rest c (some sec) := by
  induction todo with
  | nil => rfl
  | cons e todo ih =>
      simp only [List.map_cons, List.cons_append, parseLines]
      rw [h e (List.mem_cons_self e todo)]
      exact ih (fun x hx => h x (List.mem_cons_of_mem e hx))

theorem parseLines_sections {c : Config} (todo : Config) (cur : Option String)
    (hwf : WF c) (h : ∀ s ∈ todo, lookupStr c s.1 = some s.2) :
    parseLines (writeINI todo) c cur = c := by
  induction todo generalizing cur with
  | nil => rfl
  | cons s todo ih =>
      have hsec : lookupStr c s.1 = some s.2 := h s (List.mem_cons_self s todo)
      have hnd2 : (s.2.map Prod.fst).Nodup := by
        apply hwf.2 (s.1, s.2)
        exact lookupStr_mem hsec
      simp only [writeINI, parseLines]
      rw [addSection_id (by rw [hsec]; rfl)]
      rw [parseLines_kvs s.2 (INILine.blank :: writeINI todo)
        (fun e he => setKey_id hsec (mem_lookupStr hnd2
          (by rw [Prod.mk.eta]; exact he)))]
      simp only [parseLines]
      exact ih (some s.1) (fun x hx => h x (List.mem_cons_of_mem s hx))

theorem conf_read_writeINI {c : Config} (hwf : WF c) :
    conf_read c (writeINI c) = c := by
  unfold conf_read
  exact parseLines_sections c none hwf
    (fun s hs => mem_lookupStr hwf.1 (by rw [Prod.mk.eta]; exact hs))

/-! ### Merge semantics: parsing never removes a present key -/

theorem lookupStr_setItems (items : List (String × String)) (kk vv k : String) :
    lookupStr (setItems items kk vv) k
      = if k = kk then some vv else lookupStr items k := by
  unfold setItems
  by_cases hk : k = kk
  · rw [if_pos hk, hk, lookupStr_setAssoc_self]
  · rw [if_neg hk, lookupStr_setAssoc_other _ _ hk]

theorem hasKey_setKey {c : Config} {sec k : String} (s kk vv : String)
    (h : hasKey c sec k = true) : hasKey (setKey c s kk vv) sec k = true := by
  unfold hasKey at h ⊢
  unfold setKey
  rw [lookupStr_modAssoc]
  by_cases hs : sec = s
  · rw [if_pos hs]
    cases hl : lookupStr c sec with
    | none => rw [hl] at h; simp at h
    | some items =>
        rw [hl] at h
        simp only [Option.map_some', Option.getD_some] at h ⊢
        rw [lookupStr_setItems]
        by_cases hkk : k = kk
        · rw [if_pos hkk]
          rfl
        · rw [if_neg hkk]
          exact h
  · rw [if_neg hs]
    exact h

theorem hasKey_addSection {c : Config} {sec k : String} (name : String)
    (h : hasKey c sec k = true) : hasKey (addSection c name) sec k = true := by
  unfold addSection
  by_cases hex : (lookupStr c name).isSome
  · rw [if_pos hex]
    exact h
  · rw [if_neg hex]
    unfold hasKey at h ⊢
    cases hl : lookupStr c sec with
    | none => rw [hl] at h; simp at h
    | some items =>
        rw [lookupStr_append_of_isSome _ (by rw [hl]; rfl), hl]
        rw [hl] at h
        exact h

theorem hasKey_parseLines {sec k : String} (lines : List INILine) (c : Config)
    (cur : Option String) (h : hasKey c sec k = true) :
    hasKey (parseLines lines c cur) sec k = true := by
  induction lines generalizing c cur with
  | nil => exact h
  | cons line rest ih =>
      cases line with
      | header name =>
          simp only [parseLines]
          exact ih _ _ (hasKey_addSection name h)
      | kv kk vv =>
          cases cur with
          | none =>
              simp only [parseLines]
              exact ih _ _ h
          | some s =>
              simp only [parseLines]
              exact ih _ _ (hasKey_setKey s kk vv h)
      | blank =>
          simp only [parseLines]
          exact ih _ _ h
      | comment t =>
          simp only [parseLines]
          exact ih _ _ h

/-! ### Concrete instances used by witnesses and counterexamples -/

/-- An arguments record with a known config file path. -/
def pargsEx : Pargs := ⟨false, none, 0, true, "conf.ini"⟩

/-- An arguments record with no `conffile` attribute. -/
def pargsNoConf : Pargs := ⟨false, none, 0, false, ""⟩

/-- An arguments record with a log file and verbosity 2. -/
def pargsLog : Pargs := ⟨true, some "log.txt", 2, false, ""⟩

/-- All write modes enabled (the module defaults). -/
def mAll : Modes := ⟨true, true, true⟩

/-- All permission probes granted. -/
def accAll : Access := ⟨true, true, true⟩

/-- A small in-memory configuration. -/
def confEx : Config := [("main", [("key", "1"), ("old", "2")])]

/-- On-disk lines for `conf.ini`: section `main` with only `key`. -/
def linesEx : List INILine :=
  [INILine.header "main", INILine.kv "key" "0", INILine.blank]

/-- A filesystem holding only `conf.ini`. -/
def fsEx : FS := [("conf.ini", linesEx)]

/-- A logger state with stale duplicate handlers. -/
def stEx : LoggerState := ⟨[Handler.stream, Handler.stream], LogLevel.warning⟩

/-! ### Claim theorems -/

/-- C4: a `reload_conf` call whose configured config file path is not
readable fails with the "can not access config file" error (the spec's
`ConfigAccessError`); the function returns an error and produces no new
configuration, so the in-memory configuration is untouched. -/
theorem reload_unreadable_fails (m : Modes) (a : Access) (pargs : Pargs)
    (clear_load : Bool) (conf : Config) (fs : FS)
    (hc : pargs.hasConffile = true) (hr : a.readable = false) :
    reload_conf m a pargs clear_load conf fs
      = Except.error ConfErr.cannotAccessConfigFile := by
  simp [reload_conf, hc, hr]

theorem reload_unreadable_fails_witness :
    reload_conf mAll ⟨false, true, true⟩ pargsEx false confEx fsEx
      = Except.error ConfErr.cannotAccessConfigFile :=
  reload_unreadable_fails mAll ⟨false, true, true⟩ pargsEx false confEx fsEx
    rfl rfl

/-- C5: a `save_conf` call while `conf_rw` is disabled fails with the
"You have to set conf_rw to True" error (the spec's `ConfigModeError`),
and its filesystem-operation trace is the error itself: no copy, no
temporary file, no write happens. -/
theorem save_rw_disabled_error (m : Modes) (pargs : Pargs) (conf : Config)
    (fs : FS) (h : m.conf_rw = false) :
    save_ops m pargs conf = Except.error ConfErr.confRwDisabled ∧
    save_conf m pargs conf fs = Except.error ConfErr.confRwDisabled := by
  constructor
  · simp [save_ops, h]
  · simp [save_conf, save_ops, h]

theorem save_rw_disabled_error_witness :
    save_ops ⟨false, true, true⟩ pargsEx confEx
      = Except.error ConfErr.confRwDisabled ∧
    save_conf ⟨false, true, true⟩ pargsEx confEx fsEx
      = Except.error ConfErr.confRwDisabled :=
  save_rw_disabled_error ⟨false, true, true⟩ pargsEx confEx fsEx rfl

/-- C9: a `save_conf` call with write-back enabled but no `conffile`
attribute in `pargs` is a silent no-op: it returns successfully, its
operation trace is empty, and the filesystem is returned unchanged (the
in-memory configuration is never touched by `save_conf` at all). -/
theorem save_no_conffile_noop (m : Modes) (pargs : Pargs) (conf : Config)
    (fs : FS) (hrw : m.conf_rw = true) (hc : pargs.hasConffile = false) :
    save_ops m pargs conf = Except.ok [] ∧
    save_conf m pargs conf fs = Except.ok fs := by
  constructor
  · simp [save_ops, hrw, hc]
  · simp [save_conf, save_ops, hrw, hc, applyOps]

theorem save_no_conffile_noop_witness :
    save_ops mAll pargsNoConf confEx = Except.ok [] ∧
    save_conf mAll pargsNoConf confEx fsEx = Except.ok fsEx :=
  save_no_conffile_noop mAll pargsNoConf confEx fsEx rfl rfl

/-- C10: a `reload_conf` call with no `conffile` attribute in `pargs` is
a silent no-op returning the configuration unchanged, with no access
check and no file read; and the declared argument parser defines only
`input`, `logfile` and `verbose`, never `conffile`, so the `reload_conf`
executed at module initialization behaves this way unless the path was
supplied externally. -/
theorem reload_no_conffile_noop (m : Modes) (a : Access) (pargs : Pargs)
    (clear_load : Bool) (conf : Config) (fs : FS)
    (hc : pargs.hasConffile = false) :
    reload_conf m a pargs clear_load conf fs = Except.ok conf ∧
    "conffile" ∉ parser_dests := by
  constructor
  · simp [reload_conf, hc]
  · decide

theorem reload_no_conffile_noop_witness :
    reload_conf ⟨false, false, false⟩ ⟨false, false, false⟩ pargsNoConf true
      confEx fsEx = Except.ok confEx ∧
    "conffile" ∉ parser_dests :=
  reload_no_conffile_noop ⟨false, false, false⟩ ⟨false, false, false⟩
    pargsNoConf true confEx fsEx rfl

/-- C3 counterexample: with write-back enabled (`conf_rw = true`) but
safe-save and backup both disabled, a `reload_conf` call with a
configured path and an unwritable containing directory does not fail at
all: the directory check is gated on `conf_rw_save or conf_rw_backup`,
so reload succeeds. -/
theorem reload_dir_unwritable_counterexample :
    reload_conf ⟨true, false, false⟩ ⟨true, false, true⟩ pargsEx false
        confEx fsEx
      ≠ Except.error ConfErr.cannotWriteToDirectory ∧
    reload_conf ⟨true, false, false⟩ ⟨true, false, true⟩ pargsEx false
        confEx fsEx
      = Except.ok [("main", [("key", "0"), ("old", "2")])] := by
  have hok : reload_conf ⟨true, false, false⟩ ⟨true, false, true⟩ pargsEx
      false confEx fsEx = Except.ok [("main", [("key", "0"), ("old", "2")])] :=
    by rfl
  refine ⟨?_, hok⟩
  rw [hok]
  intro h
  exact Except.noConfusion h

/-- C3 (amended): a `reload_conf` call with a configured, readable config
file path, write-back enabled, at least one of safe-save or backup
enabled, and an unwritable containing directory fails with the "can not
write to directory" error (the spec's `ConfigAccessError`), before any
mutation of the in-memory configuration. -/
theorem reload_dir_unwritable_amended (m : Modes) (a : Access)
    (pargs : Pargs) (clear_load : Bool) (conf : Config) (fs : FS)
    (hc : pargs.hasConffile = true) (hr : a.readable = true)
    (hrw : m.conf_rw = true)
    (hsb : m.conf_rw_save = true ∨ m.conf_rw_backup = true)
    (hd : a.dirWritable = false) :
    reload_conf m a pargs clear_load conf fs
      = Except.error ConfErr.cannotWriteToDirectory := by
  rcases hsb with h | h <;> simp [reload_conf, hc, hr, hrw, h, hd]

theorem reload_dir_unwritable_amended_witness :
    reload_conf mAll ⟨true, false, true⟩ pargsEx false confEx fsEx
      = Except.error ConfErr.cannotWriteToDirectory :=
  reload_dir_unwritable_amended mAll ⟨true, false, true⟩ pargsEx false confEx
    fsEx rfl rfl rfl (Or.inl rfl) rfl

/-- C8: `reconfigure_logger` is idempotent: iterating it any positive
number of times leaves exactly the sinks implied by the arguments (one
stdout stream sink, plus one file sink exactly when a log file was
supplied), never duplicates; and each call closes and detaches every
previously attached sink before attaching the new ones. -/
theorem reconfigure_idempotent (pargs : Pargs) (st : LoggerState) (n : Nat)
    (hn : 1 ≤ n) :
    Nat.iterate (reconfigure1 pargs) n st = reconfigure1 pargs st ∧
    (reconfigure1 pargs st).handlers
      = Handler.stream ::
          (if pargs.hasLogfile then
            (match pargs.logfile with
             | some p => [Handler.file p]
             | none => [])
           else []) ∧
    (reconfigure_logger pargs st).2 = st.handlers := by
  refine ⟨?_, ?_, rfl⟩
  · cases n with
    | zero => exact absurd hn (by decide)
    | succ n =>
        rw [Function.iterate_succ_apply']
        rfl
  · by_cases hl : pargs.hasLogfile
    · cases hlog : pargs.logfile with
      | some p => simp [reconfigure1, reconfigure_logger, hl, hlog]
      | none => simp [reconfigure1, reconfigure_logger, hl, hlog]
    · simp [reconfigure1, reconfigure_logger, hl]

theorem reconfigure_idempotent_witness :
    Nat.iterate (reconfigure1 pargsLog) 3 stEx = reconfigure1 pargsLog stEx ∧
    (reconfigure1 pargsLog stEx).handlers
      = Handler.stream ::
          (if pargsLog.hasLogfile then
            (match pargsLog.logfile with
             | some p => [Handler.file p]
             | none => [])
           else []) ∧
    (reconfigure_logger pargsLog stEx).2 = stEx.handlers :=
  reconfigure_idempotent pargsLog stEx 3 (by decide)

/-- C7: a `save_conf` call with write-back and backup enabled first
copies the on-disk config file to `<path>.bak` (the copy is the first
operation of the trace, before any new content is written), and in the
final filesystem the `.bak` file holds exactly the pre-save content of
the config file, overwriting any prior backup. -/
theorem save_backup_correct (m : Modes) (pargs : Pargs) (conf : Config)
    (fs : FS) (orig : List INILine)
    (hrw : m.conf_rw = true) (hb : m.conf_rw_backup = true)
    (hc : pargs.hasConffile = true)
    (hfs : fsRead fs pargs.conffile = some orig) :
    ∃ ops fs2, save_ops m pargs conf = Except.ok ops ∧
      ops.head? = some (FSOp.copy pargs.conffile (pargs.conffile ++ ".bak")) ∧
      save_conf m pargs conf fs = Except.ok fs2 ∧
      fsRead fs2 (pargs.conffile ++ ".bak") = some orig := by
  have hbp : pargs.conffile ++ ".bak" ≠ pargs.conffile :=
    str_append_ne_self _ (by decide)
  have hbn : pargs.conffile ++ ".bak" ≠ pargs.conffile ++ ".new" :=
    str_append_ne_of_ne _ (by decide)
  cases hsave : m.conf_rw_save with
  | false =>
      refine ⟨[FSOp.copy pargs.conffile (pargs.conffile ++ ".bak"),
               FSOp.write pargs.conffile (writeINI conf)],
              fsWrite (fsWrite fs (pargs.conffile ++ ".bak") orig)
                pargs.conffile (writeINI conf),
              ?_, rfl, ?_, ?_⟩
      · simp [save_ops, hrw, hc, hb, hsave]
      · simp [save_conf, save_ops, hrw, hc, hb, hsave, applyOps, applyOp, hfs]
      · rw [fsRead_write_other _ _ hbp]
        exact fsRead_write_self fs _ orig
  | true =>
      refine ⟨[FSOp.copy pargs.conffile (pargs.conffile ++ ".bak"),
               FSOp.write (pargs.conffile ++ ".new") (writeINI conf),
               FSOp.rename (pargs.conffile ++ ".new") pargs.conffile],
              fsRemove
                (fsWrite
                  (fsWrite (fsWrite fs (pargs.conffile ++ ".bak") orig)
                    (pargs.conffile ++ ".new") (writeINI conf))
                  pargs.conffile (writeINI conf))
                (pargs.conffile ++ ".new"),
              ?_, rfl, ?_, ?_⟩
      · simp [save_ops, hrw, hc, hb, hsave]
      · simp [save_conf, save_ops, hrw, hc, hb, hsave, applyOps, applyOp, hfs,
          fsRead_write_self]
      · rw [fsRead_remove_other _ hbn, fsRead_write_other _ _ hbp,
          fsRead_write_other _ _ hbn]
        exact fsRead_write_self fs _ orig

theorem save_backup_correct_witness :
    ∃ ops fs2, save_ops mAll pargsEx confEx = Except.ok ops ∧
      ops.head? = some (FSOp.copy pargsEx.conffile (pargsEx.conffile ++ ".bak")) ∧
      save_conf mAll pargsEx confEx fsEx = Except.ok fs2 ∧
      fsRead fs2 (pargsEx.conffile ++ ".bak") = some linesEx :=
  save_backup_correct mAll pargsEx confEx fsEx linesEx rfl rfl rfl rfl

/-- C1: a `save_conf` call with write-back and safe-save enabled ends
its operation trace with the rename of `<path>.new` over `<path>`; after
every operation before the rename, the original path still holds its old
content while `<path>.new` holds the newly serialized configuration; and
after the whole call, `<path>.new` is gone and the original path holds
the newly serialized content. -/
theorem save_safe_save_temporal (m : Modes) (pargs : Pargs) (conf : Config)
    (fs : FS) (orig : List INILine)
    (hrw : m.conf_rw = true) (hs : m.conf_rw_save = true)
    (hc : pargs.hasConffile = true)
    (hfs : fsRead fs pargs.conffile = some orig) :
    ∃ ops fsMid fsFin,
      save_ops m pargs conf = Except.ok ops ∧
      ops.getLast?
        = some (FSOp.rename (pargs.conffile ++ ".new") pargs.conffile) ∧
      applyOps fs ops.dropLast = some fsMid ∧
      fsRead fsMid pargs.conffile = some orig ∧
      fsRead fsMid (pargs.conffile ++ ".new") = some (writeINI conf) ∧
      save_conf m pargs conf fs = Except.ok fsFin ∧
      fsRead fsFin (pargs.conffile ++ ".new") = none ∧
      fsRead fsFin pargs.conffile = some (writeINI conf) := by
  have hpb : pargs.conffile ≠ pargs.conffile ++ ".bak" :=
    Ne.symm (str_append_ne_self _ (by decide))
  have hpn : pargs.conffile ≠ pargs.conffile ++ ".new" :=
    Ne.symm (str_append_ne_self _ (by decide))
  have hnb : pargs.conffile ++ ".new" ≠ pargs.conffile ++ ".bak" :=
    str_append_ne_of_ne _ (by decide)
  cases hb : m.conf_rw_backup with
  | false =>
      refine ⟨[FSOp.write (pargs.conffile ++ ".new") (writeINI conf),
               FSOp.rename (pargs.conffile ++ ".new") pargs.conffile],
              fsWrite fs (pargs.conffile ++ ".new") (writeINI conf),
              fsRemove
                (fsWrite (fsWrite fs (pargs.conffile ++ ".new") (writeINI conf))
                  pargs.conffile (writeINI conf))
                (pargs.conffile ++ ".new"),
              ?_, rfl, ?_, ?_, ?_, ?_, ?_, ?_⟩
      · simp [save_ops, hrw, hc, hb, hs]
      · simp [List.dropLast, applyOps, applyOp]
      · rw [fsRead_write_other _ _ hpn]
        exact hfs
      · exact fsRead_write_self fs _ _
      · simp [save_conf, save_ops, hrw, hc, hb, hs, applyOps, applyOp,
          fsRead_write_self]
      · exact fsRead_remove_self _ _
      · rw [fsRead_remove_other _ hpn]
        exact fsRead_write_self _ _ _
  | true =>
      refine ⟨[FSOp.copy pargs.conffile (pargs.conffile ++ ".bak"),
               FSOp.write (pargs.conffile ++ ".new") (writeINI conf),
               FSOp.rename (pargs.conffile ++ ".new") pargs.conffile],
              fsWrite (fsWrite fs (pargs.conffile ++ ".bak") orig)
                (pargs.conffile ++ ".new") (writeINI conf),
              fsRemove
                (fsWrite
                  (fsWrite (fsWrite fs (pargs.conffile ++ ".bak") orig)
                    (pargs.conffile ++ ".new") (writeINI conf))
                  pargs.conffile (writeINI conf))
                (pargs.conffile ++ ".new"),
              ?_, rfl, ?_, ?_, ?_, ?_, ?_, ?_⟩
      · simp [save_ops, hrw, hc, hb, hs]
      · simp [List.dropLast, applyOps, applyOp, hfs]
      · rw [fsRead_write_other _ _ hpn, fsRead_write_other _ _ hpb]
        exact hfs
      · exact fsRead_write_self _ _ _
      · simp [save_conf, save_ops, hrw, hc, hb, hs, applyOps, applyOp, hfs,
          fsRead_write_self]
      · exact fsRead_remove_self _ _
      · rw [fsRead_remove_other _ hpn]
        exact fsRead_write_self _ _ _

theorem save_safe_save_temporal_witness :
    ∃ ops fsMid fsFin,
      save_ops mAll pargsEx confEx = Except.ok ops ∧
      ops.getLast?
        = some (FSOp.rename (pargsEx.conffile ++ ".new") pargsEx.conffile) ∧
      applyOps fsEx ops.dropLast = some fsMid ∧
      fsRead fsMid pargsEx.conffile = some linesEx ∧
      fsRead fsMid (pargsEx.conffile ++ ".new") = some (writeINI confEx) ∧
      save_conf mAll pargsEx confEx fsEx = Except.ok fsFin ∧
      fsRead fsFin (pargsEx.conffile ++ ".new") = none ∧
      fsRead fsFin pargsEx.conffile = some (writeINI confEx) :=
  save_safe_save_temporal mAll pargsEx confEx fsEx linesEx rfl rfl rfl rfl

/-- Helper for the round-trip: under write-back with a known config path
and an existing on-disk file, `save_conf` succeeds and leaves the
serialized configuration at the config path, in every combination of the
safe-save and backup modes. -/
theorem save_conf_writes (m : Modes) (pargs : Pargs) (conf : Config)
    (fs : FS) (orig : List INILine)
    (hrw : m.conf_rw = true) (hc : pargs.hasConffile = true)
    (hfs : fsRead fs pargs.conffile = some orig) :
    ∃ fs2, save_conf m pargs conf fs = Except.ok fs2 ∧
      fsRead fs2 pargs.conffile = some (writeINI conf) := by
  have hpn : pargs.conffile ≠ pargs.conffile ++ ".new" :=
    Ne.symm (str_append_ne_self _ (by decide))
  cases hb : m.conf_rw_backup with
  | false =>
      cases hsave : m.conf_rw_save with
      | false =>
          refine ⟨fsWrite fs pargs.conffile (writeINI conf), ?_, ?_⟩
          · simp [save_conf, save_ops, hrw, hc, hb, hsave, applyOps, applyOp]
          · exact fsRead_write_self fs _ _
      | true =>
          refine ⟨fsRemove
              (fsWrite (fsWrite fs (pargs.conffile ++ ".new") (writeINI conf))
                pargs.conffile (writeINI conf))
              (pargs.conffile ++ ".new"), ?_, ?_⟩
          · simp [save_conf, save_ops, hrw, hc, hb, hsave, applyOps, applyOp,
              fsRead_write_self]
          · rw [fsRead_remove_other _ hpn]
            exact fsRead_write_self _ _ _
  | true =>
      cases hsave : m.conf_rw_save with
      | false =>
          refine ⟨fsWrite (fsWrite fs (pargs.conffile ++ ".bak") orig)
              pargs.conffile (writeINI conf), ?_, ?_⟩
          · simp [save_conf, save_ops, hrw, hc, hb, hsave, applyOps, applyOp,
              hfs]
          · exact fsRead_write_self _ _ _
      | true =>
          refine ⟨fsRemove
              (fsWrite
                (fsWrite (fsWrite fs (pargs.conffile ++ ".bak") orig)
                  (pargs.conffile ++ ".new") (writeINI conf))
                pargs.conffile (writeINI conf))
              (pargs.conffile ++ ".new"), ?_, ?_⟩
          · simp [save_conf, save_ops, hrw, hc, hb, hsave, applyOps, applyOp,
              hfs, fsRead_write_self]
          · rw [fsRead_remove_other _ hpn]
            exact fsRead_write_self _ _ _

/-- C2: saving a well-formed configuration with `save_conf` and then
reloading it with `reload_conf` (without clear) returns exactly the
saved configuration: the file contains every saved section and key, and
merging it over the identical in-memory state changes nothing. -/
theorem save_reload_roundtrip (m : Modes) (a : Access) (pargs : Pargs)
    (conf : Config) (fs : FS) (orig : List INILine)
    (hwf : WF conf) (hrw : m.conf_rw = true) (hc : pargs.hasConffile = true)
    (hfs : fsRead fs pargs.conffile = some orig)
    (hr : a.readable = true) (hd : a.dirWritable = true)
    (hf : a.fileWritable = true) :
    ∃ fs2, save_conf m pargs conf fs = Except.ok fs2 ∧
      reload_conf m a pargs false conf fs2 = Except.ok conf := by
  obtain ⟨fs2, hsave2, hread⟩ :=
    save_conf_writes m pargs conf fs orig hrw hc hfs
  refine ⟨fs2, hsave2, ?_⟩
  simp [reload_conf, hc, hr, hd, hf, hread, conf_read_writeINI hwf]

theorem save_reload_roundtrip_witness :
    ∃ fs2, save_conf mAll pargsEx confEx fsEx = Except.ok fs2 ∧
      reload_conf mAll accAll pargsEx false confEx fs2 = Except.ok confEx :=
  save_reload_roundtrip mAll accAll pargsEx confEx fsEx linesEx (by decide)
    rfl rfl rfl rfl rfl rfl

/-- C6: over one and the same on-disk file state, for a key present in
the in-memory configuration but absent from the file: `reload_conf` with
`clear_load` first drops every section and then loads only the file, so
the key is absent afterwards; `reload_conf` without `clear_load` merges
the file over the existing configuration, so the key stays present. -/
theorem reload_clear_semantics (m : Modes) (a : Access) (pargs : Pargs)
    (conf : Config) (fs : FS) (lines : List INILine) (sec k : String)
    (hc : pargs.hasConffile = true) (hr : a.readable = true)
    (hd : a.dirWritable = true) (hf : a.fileWritable = true)
    (hfs : fsRead fs pargs.conffile = some lines)
    (hmem : hasKey conf sec k = true)
    (habsent : hasKey (conf_read [] lines) sec k = false) :
    reload_conf m a pargs true conf fs = Except.ok (conf_read [] lines) ∧
    hasKey (conf_read [] lines) sec k = false ∧
    ∃ c2, reload_conf m a pargs false conf fs = Except.ok c2 ∧
      hasKey c2 sec k = true := by
  refine ⟨?_, habsent, conf_read conf lines, ?_, ?_⟩
  · simp [reload_conf, hc, hr, hd, hf, hfs]
  · simp [reload_conf, hc, hr, hd, hf, hfs]
  · exact hasKey_parseLines lines conf none hmem

theorem reload_clear_semantics_witness :
    reload_conf mAll accAll pargsEx true confEx fsEx
      = Except.ok (conf_read [] linesEx) ∧
    hasKey (conf_read [] linesEx) "main" "old" = false ∧
    ∃ c2, reload_conf mAll accAll pargsEx false confEx fsEx = Except.ok c2 ∧
      hasKey c2 "main" "old" = true :=
  reload_clear_semantics mAll accAll pargsEx confEx fsEx linesEx "main" "old"
    rfl rfl rfl rfl rfl (by decide) (by decide)

end Proginit
